import Mathlib

/-!
# Verification of the NAP (Name/Address/Phone) audit engine

Shallow embedding of `src/nap_checks.py`: Python strings are modelled as
`List Char` (ASCII model: the Python regex classes `\w`/`\s`, `str.lower`,
`str.strip` are modelled with Lean's ASCII character predicates), Python
floats as `ℚ`.  The difflib `SequenceMatcher.ratio` used by
`similarity_ratio` is third-party library code not present in the
repository; it is modelled from the spec (Ratcliff–Obershelp gestalt
pattern matching, §4.2), including difflib's tie-break rule (the longest
matching block that starts earliest in the first string, then earliest in
the second) and its convention that the ratio of two empty strings is 1.
-/

/-- Python strings, modelled as lists of characters. -/
abbrev Str := List Char

/-- `str.lower()` (ASCII model). -/
def pyLower (s : Str) : Str := s.map Char.toLower

/-- `str.strip()`: remove leading and trailing whitespace. -/
def pyStrip (s : Str) : Str :=
  ((s.dropWhile Char.isWhitespace).reverse.dropWhile Char.isWhitespace).reverse

/-- Helper for `pySplit`: `acc` holds the current (reversed) word. -/
def splitAux : Str → Str → List Str
  | [], acc => if acc = [] then [] else [acc.reverse]
  | c :: cs, acc =>
    if c.isWhitespace then
      if acc = [] then splitAux cs [] else acc.reverse :: splitAux cs []
    else splitAux cs (c :: acc)

/-- Python `str.split()` with no argument: split on runs of whitespace,
producing no empty words. -/
def pySplit (s : Str) : List Str := splitAux s []

/-- `' '.join(words)`. -/
def joinSpace : List Str → Str
  | [] => []
  | [w] => w
  | w :: w' :: ws => w ++ ' ' :: joinSpace (w' :: ws)

/-- A character kept by the regex class `\w` (ASCII model):
letters, digits and the underscore. -/
def isWordChar (c : Char) : Bool := c.isAlphanum || c == '_'

/-- The Python `in` operator on strings: `needle` occurs as a contiguous
substring of `hay`. -/
def containsSub (needle hay : Str) : Bool :=
  hay.tails.any (fun t => needle.isPrefixOf t)

/-- `normalize_phone` (nap_checks.py lines 13-22): keep only digits, and
keep only the last 10 digits when there are more. -/
def normalize_phone (phone : Str) : Str :=
  let digits_only := phone.filter Char.isDigit
  if digits_only.length > 10 then digits_only.drop (digits_only.length - 10)
  else digits_only

/-- `normalize_text_for_comparison` (lines 30-37): lower-case, replace every
character outside `[\w\s]` by a space, then collapse whitespace runs to
single spaces and trim (via `' '.join(s.split())`). -/
def normalize_text_for_comparison (text : Str) : Str :=
  if text = [] then []
  else
    let replaced := (pyLower text).map
      (fun c => if isWordChar c || c.isWhitespace then c else ' ')
    joinSpace (pySplit replaced)

/-- Length of the longest common prefix of two strings. -/
def matchLen : Str → Str → Nat
  | c :: cs, d :: ds => if c = d then matchLen cs ds + 1 else 0
  | _, _ => 0

/-- Modelled from the spec (§4.2) and difflib's documented behaviour:
`find_longest_match` over whole strings.  Returns `(i, j, k)` with
`a.drop i` and `b.drop j` sharing a common prefix of length `k`, where `k`
is the largest possible and, among maximal blocks, `i` is smallest and then
`j` is smallest (difflib's tie-break). -/
def flm (a b : Str) : Nat × Nat × Nat :=
  (List.range a.length).foldl (fun best i =>
    (List.range b.length).foldl (fun best2 j =>
      if best2.2.2 < matchLen (a.drop i) (b.drop j) then
        (i, j, matchLen (a.drop i) (b.drop j))
      else best2) best) (0, 0, 0)

/-- Total number of matched characters over the recursive decomposition
into longest matching blocks (Ratcliff–Obershelp), with explicit fuel so
that the definition is structural.  Every recursive call strictly
decreases the length of the first string, so `a.length` fuel suffices
(`matchedCharsAux_congr` below). -/
def matchedCharsAux : Nat → Str → Str → Nat
  | 0, _, _ => 0
  | fuel + 1, a, b =>
    let t := flm a b
    if t.2.2 = 0 then 0
    else
      matchedCharsAux fuel (a.take t.1) (b.take t.2.1) + t.2.2 +
        matchedCharsAux fuel (a.drop (t.1 + t.2.2)) (b.drop (t.2.1 + t.2.2))

/-- Number of matched characters between two strings. -/
def matchedChars (a b : Str) : Nat := matchedCharsAux a.length a b

/-- Modelled from the spec (§4.2): `SequenceMatcher(None, a, b).ratio()`,
twice the number of matched characters divided by the total length, with
difflib's convention that two empty strings have ratio 1. -/
def sm_ratio (a b : Str) : ℚ :=
  if a.length + b.length = 0 then 1
  else (2 * matchedChars a b : ℚ) / (a.length + b.length : ℚ)

/-- `similarity_ratio` (lines 24-28): 0.0 when either raw argument is
empty, otherwise the sequence-matcher ratio of the lowered and stripped
arguments. -/
def similarity_ratio (a b : Str) : ℚ :=
  if a = [] ∨ b = [] then 0
  else sm_ratio (pyStrip (pyLower a)) (pyStrip (pyLower b))

/-- `check_name_match` (lines 65-80).  The threshold (default 0.80 in the
source, always used at its default by the main loop) is passed
explicitly. -/
def check_name_match (input_name api_name : Str) (threshold : ℚ) : Bool × ℚ :=
  if input_name = [] ∨ api_name = [] then (false, 0)
  else
    let norm_input := normalize_text_for_comparison input_name
    let norm_api := normalize_text_for_comparison api_name
    let similarity := similarity_ratio norm_input norm_api
    let contains_match := containsSub norm_input norm_api || containsSub norm_api norm_input
    (decide (threshold ≤ similarity) || contains_match, similarity)

/-- `check_address_match` (lines 82-108).  The threshold (default 0.85 in
the source, always used at its default by the main loop) is passed
explicitly. -/
def check_address_match (input_address api_address : Str) (threshold : ℚ) : Bool × ℚ :=
  if input_address = [] ∨ api_address = [] then (false, 0)
  else
    let norm_input := normalize_text_for_comparison input_address
    let norm_api := normalize_text_for_comparison api_address
    let similarity := similarity_ratio norm_input norm_api
    let input_parts := pySplit norm_input
    let api_parts := pySplit norm_api
    let key_matches :=
      (input_parts.filter
        (fun part => decide (part.length > 2) &&
          api_parts.any (fun api_part => containsSub part api_part))).length
    let total_parts := input_parts.length
    let component_match_ratio : ℚ :=
      if total_parts > 0 then (key_matches : ℚ) / (max total_parts 1 : ℚ) else 0
    (decide (threshold ≤ similarity) || decide ((0.7 : ℚ) ≤ component_match_ratio),
      max similarity component_match_ratio)

/-- `check_phone_match` (lines 110-126). -/
def check_phone_match (input_phone api_phone : Str) : Bool × ℚ :=
  let norm_input := normalize_phone input_phone
  let norm_api := normalize_phone api_phone
  if norm_input = [] ∨ norm_api = [] then (false, 0)
  else if norm_input = norm_api then (true, 1)
  else if containsSub norm_input norm_api || containsSub norm_api norm_input then (true, 0.9)
  else (false, 0)

/-- The status-determination if-chain of the main loop (lines 186-199):
rules 3-9 of the verdict engine, evaluated in source order. -/
def determine_status (name_match address_match phone_match : Bool)
    (name_sim address_sim phone_sim : ℚ) : Str :=
  if name_match && address_match && phone_match then
    "SUCCESS - All NAP data matches".data
  else if name_match && address_match then
    "SUCCESS - Name & Address match (Phone missing/different)".data
  else if name_match && phone_match then
    "PARTIAL - Name & Phone match (Address different)".data
  else if address_match && phone_match then
    "PARTIAL - Address & Phone match (Name different)".data
  else if name_match then
    "PARTIAL - Only Name matches".data
  else if (decide ((0.95 : ℚ) ≤ name_sim) && decide ((0.95 : ℚ) ≤ address_sim)) ||
      (decide ((0.95 : ℚ) ≤ name_sim) && decide ((0.95 : ℚ) ≤ phone_sim)) then
    "SUCCESS - 95%+ similarity match".data
  else
    "FAIL - Significant NAP inconsistencies".data

/-- One input record of the main loop: business name, raw phone, and the
full address composed by `format_full_address`. -/
structure InputRecord where
  businessName : Str
  phone : Str
  fullAddress : Str

/-- Outcome of the external lookup for one record: the lookup raised an
error, returned zero results, or returned a top result whose details
resolve to the given name/address/phone. -/
inductive LookupOutcome where
  | error (msg : Str)
  | noResults
  | found (apiName apiAddress apiPhone : Str)

/-- One output row as appended to `results` by the main loop. -/
structure OutputRow where
  inputName : Str
  inputPhone : Str
  inputAddress : Str
  apiName : Str
  apiPhone : Str
  apiAddress : Str
  nameMatch : Str
  addressMatch : Str
  phoneMatch : Str
  nameSim : ℚ
  addressSim : ℚ
  phoneSim : ℚ
  status : Str

/-- `round(x, 3)` as used for the similarity columns.  (Python rounds
half-to-even on floats; on exact rationals this model rounds ties up,
a difference no claim exercises.) -/
def pyRound3 (x : ℚ) : ℚ := (round (x * 1000) : ℤ) / 1000

/-- The per-record body of the main loop (lines 149-235): produce the
output row for one record given the lookup outcome. -/
def processRecord (r : InputRecord) (lookup : LookupOutcome) : OutputRow :=
  match lookup with
  | .noResults =>
    { inputName := r.businessName, inputPhone := r.phone, inputAddress := r.fullAddress
      apiName := [], apiPhone := [], apiAddress := []
      nameMatch := "No".data, addressMatch := "No".data, phoneMatch := "No".data
      nameSim := 0, addressSim := 0, phoneSim := 0
      status := "FAIL - No results found".data }
  | .found apiName apiAddress apiPhone =>
    let nm := check_name_match r.businessName apiName 0.80
    let am := check_address_match r.fullAddress apiAddress 0.85
    let pm := check_phone_match r.phone apiPhone
    { inputName := r.businessName, inputPhone := r.phone, inputAddress := r.fullAddress
      apiName := apiName, apiPhone := apiPhone, apiAddress := apiAddress
      nameMatch := if nm.1 then "Yes".data else "No".data
      addressMatch := if am.1 then "Yes".data else "No".data
      phoneMatch := if pm.1 then "Yes".data else "No".data
      nameSim := pyRound3 nm.2, addressSim := pyRound3 am.2, phoneSim := pyRound3 pm.2
      status := determine_status nm.1 am.1 pm.1 nm.2 am.2 pm.2 }
  | .error msg =>
    { inputName := r.businessName, inputPhone := r.phone, inputAddress := r.fullAddress
      apiName := [], apiPhone := [], apiAddress := []
      nameMatch := "Error".data, addressMatch := "Error".data, phoneMatch := "Error".data
      nameSim := 0, addressSim := 0, phoneSim := 0
      status := "ERROR - ".data ++ msg }

/-- Number of statuses containing `keyword` as a substring
(`df['Overall NAP Status'].str.contains(keyword)`). -/
def count_containing (keyword : Str) (statuses : List Str) : Nat :=
  (statuses.filter (fun s => containsSub keyword s)).length

/-- `success_count` (line 241). -/
def numSuccess (statuses : List Str) : Nat := count_containing "SUCCESS".data statuses

/-- `partial_count` (line 242). -/
def numPartial (statuses : List Str) : Nat := count_containing "PARTIAL".data statuses

/-- `fail_count` (line 243). -/
def numFail (statuses : List Str) : Nat := count_containing "FAIL".data statuses

/-- `error_count` (line 244). -/
def numError (statuses : List Str) : Nat := count_containing "ERROR".data statuses

/-! ## General helper lemmas -/

theorem foldl_fixed_of {α β : Type} {f : β → α → β} {b : β} :
    ∀ {l : List α}, (∀ x ∈ l, f b x = b) → l.foldl f b = b
  | [], _ => rfl
  | x :: l, h => by
    rw [List.foldl_cons, h x (List.mem_cons_self x l)]
    exact foldl_fixed_of (fun y hy => h y (List.mem_cons_of_mem x hy))

theorem foldl_pres {α β : Type} (P : β → Prop) (f : β → α → β)
    (hstep : ∀ b x, P b → P (f b x)) :
    ∀ (l : List α) (b : β), P b → P (l.foldl f b)
  | [], _, h => h
  | x :: l, b, h => foldl_pres P f hstep l (f b x) (hstep b x h)

theorem char_isUpper_iff (c : Char) : c.isUpper = true ↔ 65 ≤ c.toNat ∧ c.toNat ≤ 90 := by
  simp only [Char.isUpper, Bool.and_eq_true, decide_eq_true_eq, ge_iff_le, UInt32.le_def,
    BitVec.le_def]
  constructor
  · rintro ⟨h1, h2⟩; exact ⟨h1, h2⟩
  · rintro ⟨h1, h2⟩; exact ⟨h1, h2⟩

theorem toLower_isUpper_false (c : Char) : (Char.toLower c).isUpper = false := by
  unfold Char.toLower
  simp only []
  by_cases h : Char.toNat c ≥ 65 ∧ Char.toNat c ≤ 90
  · rw [if_pos h]
    obtain ⟨h1, h2⟩ := h
    set n := Char.toNat c with hn
    interval_cases n <;> decide
  · rw [if_neg h]
    rw [Bool.eq_false_iff]
    intro hu
    exact h ⟨(char_isUpper_iff c).1 hu |>.1, (char_isUpper_iff c).1 hu |>.2⟩

/-! ## Lemmas about the similarity scorer -/

theorem matchLen_le_left : ∀ a b : Str, matchLen a b ≤ a.length
  | [], _ => by simp [matchLen]
  | _ :: _, [] => by simp [matchLen]
  | c :: cs, d :: ds => by
    rw [matchLen]
    split
    · exact Nat.succ_le_succ (matchLen_le_left cs ds)
    · exact Nat.zero_le _

theorem matchLen_le_right : ∀ a b : Str, matchLen a b ≤ b.length
  | [], _ => by simp [matchLen]
  | _ :: _, [] => by simp [matchLen]
  | c :: cs, d :: ds => by
    rw [matchLen]
    split
    · exact Nat.succ_le_succ (matchLen_le_right cs ds)
    · exact Nat.zero_le _

theorem matchLen_self : ∀ a : Str, matchLen a a = a.length
  | [] => by simp [matchLen]
  | c :: cs => by rw [matchLen, if_pos rfl, matchLen_self cs]; rfl

theorem flm_bounds (a b : Str) :
    (flm a b).2.2 ≤ a.length - (flm a b).1 ∧ (flm a b).2.2 ≤ b.length - (flm a b).2.1 := by
  unfold flm
  refine foldl_pres
    (fun (t : Nat × Nat × Nat) => t.2.2 ≤ a.length - t.1 ∧ t.2.2 ≤ b.length - t.2.1)
    _ (fun best i hb => ?_) (List.range a.length) (0, 0, 0) (by simp)
  refine foldl_pres
    (fun (t : Nat × Nat × Nat) => t.2.2 ≤ a.length - t.1 ∧ t.2.2 ≤ b.length - t.2.1)
    _ (fun best2 j h2 => ?_) (List.range b.length) best hb
  dsimp only
  split
  · constructor
    · simpa using matchLen_le_left (a.drop i) (b.drop j)
    · simpa using matchLen_le_right (a.drop i) (b.drop j)
  · exact h2

theorem flm_nil (b : Str) : flm [] b = (0, 0, 0) := by
  unfold flm
  simp

theorem matchedCharsAux_nil : ∀ (f : Nat) (b : Str), matchedCharsAux f [] b = 0
  | 0, _ => rfl
  | f + 1, b => by
    rw [matchedCharsAux]
    simp [flm_nil]

theorem matchedCharsAux_congr :
    ∀ (n f g : Nat) (a b : Str), a.length ≤ f → a.length ≤ g → a.length ≤ n →
      matchedCharsAux f a b = matchedCharsAux g a b := by
  intro n
  induction n with
  | zero =>
    intro f g a b _ _ hn
    have : a = [] := List.eq_nil_of_length_eq_zero (Nat.le_zero.1 hn)
    subst this
    rw [matchedCharsAux_nil, matchedCharsAux_nil]
  | succ n ih =>
    intro f g a b hf hg hn
    match a, f, g with
    | [], f, g => rw [matchedCharsAux_nil, matchedCharsAux_nil]
    | c :: cs, f + 1, g + 1 =>
      rw [matchedCharsAux, matchedCharsAux]
      have hb := flm_bounds (c :: cs) b
      split
      · rfl
      · next hk =>
        have hlen : (c :: cs).length = cs.length + 1 := rfl
        have h1 : (flm (c :: cs) b).1 < (c :: cs).length := by omega
        congr 1
        · congr 1
          · apply ih <;> simp [List.length_take] <;> omega
        · apply ih <;> simp [List.length_drop] <;> omega

theorem matchedChars_nil_left (b : Str) : matchedChars [] b = 0 := by
  unfold matchedChars
  exact matchedCharsAux_nil _ _

theorem matchedChars_eq (a b : Str) :
    matchedChars a b =
      if (flm a b).2.2 = 0 then 0
      else
        matchedChars (a.take (flm a b).1) (b.take (flm a b).2.1) + (flm a b).2.2 +
          matchedChars (a.drop ((flm a b).1 + (flm a b).2.2))
            (b.drop ((flm a b).2.1 + (flm a b).2.2)) := by
  match a with
  | [] =>
    rw [matchedChars_nil_left, flm_nil]
    simp [matchedChars_nil_left]
  | c :: cs =>
    have hb := flm_bounds (c :: cs) b
    have hlen : (c :: cs).length = cs.length + 1 := rfl
    conv_lhs => rw [matchedChars, hlen, matchedCharsAux]
    split
    · rfl
    · next hk =>
      have h1 : (flm (c :: cs) b).1 < (c :: cs).length := by omega
      unfold matchedChars
      congr 1
      · congr 1
        · apply matchedCharsAux_congr (cs.length + 1) <;>
            simp [List.length_take] <;> omega
      · apply matchedCharsAux_congr (cs.length + 1) <;>
          simp [List.length_drop] <;> omega

theorem matchedChars_le :
    ∀ (n : Nat) (a b : Str), a.length ≤ n →
      matchedChars a b ≤ a.length ∧ matchedChars a b ≤ b.length := by
  intro n
  induction n with
  | zero =>
    intro a b hn
    have : a = [] := List.eq_nil_of_length_eq_zero (Nat.le_zero.1 hn)
    subst this
    simp [matchedChars_nil_left]
  | succ n ih =>
    intro a b hn
    rw [matchedChars_eq]
    split
    · simp
    · next hk =>
      have hb := flm_bounds a b
      set i := (flm a b).1 with hi
      set j := (flm a b).2.1 with hj
      set k := (flm a b).2.2 with hkk
      have hia : i < a.length := by omega
      have hjb : j < b.length := by omega
      have h1 := ih (a.take i) (b.take j) (by simp [List.length_take]; omega)
      have h2 := ih (a.drop (i + k)) (b.drop (j + k)) (by simp [List.length_drop]; omega)
      have lt1 : (a.take i).length = i := by simp [List.length_take]; omega
      have lt2 : (b.take j).length = j := by simp [List.length_take]; omega
      have ld1 : (a.drop (i + k)).length = a.length - (i + k) := by simp [List.length_drop]
      have ld2 : (b.drop (j + k)).length = b.length - (j + k) := by simp [List.length_drop]
      rw [lt1, lt2] at h1
      rw [ld1, ld2] at h2
      omega

theorem matchedChars_le_left (a b : Str) : matchedChars a b ≤ a.length :=
  (matchedChars_le a.length a b (Nat.le_refl _)).1

theorem matchedChars_le_right (a b : Str) : matchedChars a b ≤ b.length :=
  (matchedChars_le a.length a b (Nat.le_refl _)).2


theorem flm_self (a : Str) (h : a ≠ []) : flm a a = (0, 0, a.length) := by
  obtain ⟨m, hm⟩ : ∃ m, a.length = m + 1 :=
    ⟨a.length - 1, by cases a with | nil => exact absurd rfl h | cons c cs => simp⟩
  have hinner : ∀ (l : List Nat) (i : Nat),
      l.foldl (fun best2 j =>
        if best2.2.2 < matchLen (a.drop i) (a.drop j) then
          (i, j, matchLen (a.drop i) (a.drop j))
        else best2) (0, 0, a.length) = (0, 0, a.length) := by
    intro l i
    apply foldl_fixed_of
    intro j hj
    rw [if_neg]
    have := matchLen_le_left (a.drop i) (a.drop j)
    simp only [List.length_drop] at this
    simp only []
    omega
  unfold flm
  rw [hm, List.range_succ_eq_map, List.foldl_cons]
  have first :
      (List.map Nat.succ (List.range m)).foldl (fun best2 j =>
        if best2.2.2 < matchLen (a.drop 0) (a.drop j) then
          (0, j, matchLen (a.drop 0) (a.drop j))
        else best2)
        (if ((0 : Nat), (0 : Nat), (0 : Nat)).2.2 < matchLen (a.drop 0) (a.drop 0) then
          (0, 0, matchLen (a.drop 0) (a.drop 0))
        else ((0 : Nat), (0 : Nat), (0 : Nat))) = (0, 0, a.length) := by
    rw [List.drop_zero, matchLen_self, if_pos (by simp [hm])]
    have := hinner (List.map Nat.succ (List.range m)) 0
    rw [List.drop_zero] at this
    exact this
  rw [List.foldl_cons, first, ← hm]
  apply foldl_fixed_of
  intro i hi
  exact hinner _ i

theorem matchedChars_self (a : Str) : matchedChars a a = a.length := by
  match a with
  | [] => simp [matchedChars_nil_left]
  | c :: cs =>
    rw [matchedChars_eq, flm_self (c :: cs) (by simp)]
    have hne : (c :: cs).length ≠ 0 := by simp
    rw [if_neg hne]
    simp [matchedChars_nil_left, List.drop_length]

/-! ## C4: properties of similarity_ratio -/

/-- C4 (counterexample): `similarity_ratio` is not symmetric.  On the pair
"brady"/"byrd" the recursive longest-block decomposition matches 3
characters in one direction but only 2 in the other (the tie-break picks
a different size-1 block), so the two ratios are 2/3 and 4/9. -/
theorem similarity_ratio_not_symmetric :
    similarity_ratio "brady".data "byrd".data ≠ similarity_ratio "byrd".data "brady".data := by
  have e1 : pyStrip (pyLower "brady".data) = "brady".data := by decide
  have e2 : pyStrip (pyLower "byrd".data) = "byrd".data := by decide
  have h1 : matchedChars "brady".data "byrd".data = 3 := by decide
  have h2 : matchedChars "byrd".data "brady".data = 2 := by decide
  have l1 : ("brady".data).length = 5 := by decide
  have l2 : ("byrd".data).length = 4 := by decide
  have g1 : ¬("brady".data = [] ∨ "byrd".data = []) := by decide
  have g2 : ¬("byrd".data = [] ∨ "brady".data = []) := by decide
  rw [similarity_ratio, similarity_ratio, if_neg g1, if_neg g2, e1, e2,
    sm_ratio, sm_ratio, h1, h2, l1, l2]
  norm_num

/-- C4 (amended): `similarity_ratio(a,a) = 1` for every non-empty `a`, the
result is always in `[0,1]`, and the result is `0` whenever either
argument is empty.  (The claim's symmetry conjunct is false, see
`similarity_ratio_not_symmetric`.) -/
theorem similarity_ratio_props :
    (∀ a : Str, a ≠ [] → similarity_ratio a a = 1) ∧
    (∀ a b : Str, 0 ≤ similarity_ratio a b ∧ similarity_ratio a b ≤ 1) ∧
    (∀ b : Str, similarity_ratio [] b = 0 ∧ similarity_ratio b [] = 0) := by
  refine ⟨fun a ha => ?_, fun a b => ?_, fun b => ?_⟩
  · rw [similarity_ratio, if_neg (by simp [ha]), sm_ratio, matchedChars_self]
    set s := pyStrip (pyLower a) with hs
    by_cases h0 : s.length + s.length = 0
    · rw [if_pos h0]
    · rw [if_neg h0]
      have hne : ((s.length : ℚ) + s.length) ≠ 0 := by
        have : s.length ≠ 0 := by omega
        positivity
      rw [two_mul, div_self hne]
  · rw [similarity_ratio]
    split
    · norm_num
    · rw [sm_ratio]
      split
      · norm_num
      · next hne =>
        set x := pyStrip (pyLower a) with hx
        set y := pyStrip (pyLower b) with hy
        have hpos : (0 : ℚ) < (x.length : ℚ) + y.length := by
          have : 0 < x.length + y.length := Nat.pos_of_ne_zero hne
          exact_mod_cast this
        constructor
        · apply div_nonneg _ (le_of_lt hpos)
          positivity
        · rw [div_le_one hpos]
          have hb1 := matchedChars_le_left x y
          have hb2 := matchedChars_le_right x y
          have : 2 * matchedChars x y ≤ x.length + y.length := by omega
          exact_mod_cast this
  · constructor
    · rw [similarity_ratio, if_pos (Or.inl rfl)]
    · rw [similarity_ratio]
      rw [if_pos (Or.inr rfl)]

/-- C4 (witness): the amended theorem applied at the concrete non-empty
string "acme". -/
theorem similarity_ratio_props_witness :
    similarity_ratio "acme".data "acme".data = 1 :=
  similarity_ratio_props.1 "acme".data (by decide)

/-! ## C1 and C2: verdict-engine rule order -/

/-- C1: rules are evaluated in source order and the first applicable rule
wins: when name, address and phone all matched AND the rule-8 similarity
override condition also holds, the verdict is rule 3's
"SUCCESS - All NAP data matches", never rule 8's
"SUCCESS - 95%+ similarity match". -/
theorem rule3_wins_over_rule8 (ns as ps : ℚ)
    (h8 : ((0.95 : ℚ) ≤ ns ∧ (0.95 : ℚ) ≤ as) ∨ ((0.95 : ℚ) ≤ ns ∧ (0.95 : ℚ) ≤ ps)) :
    determine_status true true true ns as ps = "SUCCESS - All NAP data matches".data ∧
      determine_status true true true ns as ps ≠ "SUCCESS - 95%+ similarity match".data := by
  have hval : determine_status true true true ns as ps =
      "SUCCESS - All NAP data matches".data := rfl
  refine ⟨hval, ?_⟩
  rw [hval]
  decide

/-- C1 (witness): both rule 3's condition and rule 8's override hold at
similarity scores 1/1/1, and rule 3 wins. -/
theorem rule3_wins_over_rule8_witness :
    determine_status true true true 1 1 1 = "SUCCESS - All NAP data matches".data ∧
      determine_status true true true 1 1 1 ≠ "SUCCESS - 95%+ similarity match".data :=
  rule3_wins_over_rule8 1 1 1 (Or.inl ⟨by norm_num, by norm_num⟩)

theorem name_sim_high_matched (n1 n2 : Str)
    (h : (0.95 : ℚ) ≤ (check_name_match n1 n2 0.80).2) :
    (check_name_match n1 n2 0.80).1 = true := by
  by_cases hg : n1 = [] ∨ n2 = []
  · exfalso
    rw [check_name_match, if_pos hg] at h
    norm_num at h
  · rw [check_name_match, if_neg hg] at h ⊢
    simp only at h ⊢
    rw [Bool.or_eq_true]
    left
    rw [decide_eq_true_eq]
    linarith

/-- C2: when the three outcomes fed to the verdict engine are the ones
actually produced by `check_name_match` (at its 0.80 default threshold),
`check_address_match` (0.85) and `check_phone_match`, the verdict
"SUCCESS - 95%+ similarity match" is never returned: a name similarity
of at least 0.95 already exceeds the 0.80 threshold, so name_match is
true and rule 7 or an earlier rule fires first. -/
theorem sim95_override_unreachable (n1 n2 a1 a2 p1 p2 : Str) :
    determine_status (check_name_match n1 n2 0.80).1 (check_address_match a1 a2 0.85).1
      (check_phone_match p1 p2).1 (check_name_match n1 n2 0.80).2
      (check_address_match a1 a2 0.85).2 (check_phone_match p1 p2).2 ≠
      "SUCCESS - 95%+ similarity match".data := by
  rw [determine_status]
  split_ifs with h1 h2 h3 h4 h5 h6
  · decide
  · decide
  · decide
  · decide
  · decide
  · exfalso
    simp only [Bool.or_eq_true, Bool.and_eq_true, decide_eq_true_eq] at h6
    have hns : (0.95 : ℚ) ≤ (check_name_match n1 n2 0.80).2 := by
      rcases h6 with ⟨h, _⟩ | ⟨h, _⟩ <;> exact h
    exact h5 (name_sim_high_matched n1 n2 hns)
  · decide

/-! ## C5, C6: name matcher -/

theorem containsSub_nil_left (x : Str) : containsSub [] x = true := by
  rw [containsSub, List.any_eq_true]
  exact ⟨x, (List.mem_tails x x).2 (List.suffix_refl x), by cases x <;> rfl⟩

theorem check_name_match_eq (n a : Str) (θ : ℚ) (hn : n ≠ []) (ha : a ≠ []) :
    check_name_match n a θ =
      (decide (θ ≤ similarity_ratio (normalize_text_for_comparison n)
          (normalize_text_for_comparison a)) ||
        (containsSub (normalize_text_for_comparison n) (normalize_text_for_comparison a) ||
          containsSub (normalize_text_for_comparison a) (normalize_text_for_comparison n)),
        similarity_ratio (normalize_text_for_comparison n)
          (normalize_text_for_comparison a)) := by
  rw [check_name_match, if_neg (by simp [hn, ha])]

/-- C5: `check_name_match` returns `(false, 0)` when either raw input is
empty; otherwise it returns `matched = (sim ≥ threshold) OR containment`
paired with the raw similarity — and a containment-triggered match can
report `matched = true` alongside a similarity below the threshold
(e.g. "ab" vs "abcdefgh", similarity 2/5). -/
theorem check_name_match_spec :
    (∀ (n a : Str) (θ : ℚ), (n = [] ∨ a = []) → check_name_match n a θ = (false, 0)) ∧
    (∀ (n a : Str) (θ : ℚ), n ≠ [] → a ≠ [] →
      check_name_match n a θ =
        (decide (θ ≤ similarity_ratio (normalize_text_for_comparison n)
            (normalize_text_for_comparison a)) ||
          (containsSub (normalize_text_for_comparison n) (normalize_text_for_comparison a) ||
            containsSub (normalize_text_for_comparison a) (normalize_text_for_comparison n)),
          similarity_ratio (normalize_text_for_comparison n)
            (normalize_text_for_comparison a))) ∧
    ((check_name_match "ab".data "abcdefgh".data 0.80).1 = true ∧
      (check_name_match "ab".data "abcdefgh".data 0.80).2 < 0.80) := by
  have hn2 : normalize_text_for_comparison "ab".data = "ab".data := by decide
  have ha2 : normalize_text_for_comparison "abcdefgh".data = "abcdefgh".data := by decide
  have hc : containsSub "ab".data "abcdefgh".data = true := by decide
  have hm : matchedChars "ab".data "abcdefgh".data = 2 := by decide
  have hs1 : pyStrip (pyLower "ab".data) = "ab".data := by decide
  have hs2 : pyStrip (pyLower "abcdefgh".data) = "abcdefgh".data := by decide
  have hl1 : ("ab".data).length = 2 := by decide
  have hl2 : ("abcdefgh".data).length = 8 := by decide
  have hsim : similarity_ratio "ab".data "abcdefgh".data = 2 / 5 := by
    rw [similarity_ratio, if_neg (by decide), hs1, hs2, sm_ratio, hm, hl1, hl2]
    norm_num
  refine ⟨fun n a θ hg => ?_, fun n a θ hn ha => ?_, ?_, ?_⟩
  · rw [check_name_match, if_pos hg]
  · rw [check_name_match, if_neg (by simp [hn, ha])]
  · rw [check_name_match, if_neg (by decide)]
    simp only [hn2, ha2, hc, Bool.true_or, Bool.or_true]
  · rw [check_name_match, if_neg (by decide)]
    simp only [hn2, ha2, hsim]
    norm_num

/-- C5 (witness): the empty-input clause at `("", "x")` and the general
clause at `("acme", "acme co")`. -/
theorem check_name_match_spec_witness :
    check_name_match [] "x".data 0.80 = (false, 0) ∧
    check_name_match "acme".data "acme co".data 0.80 =
      (decide ((0.80 : ℚ) ≤ similarity_ratio (normalize_text_for_comparison "acme".data)
          (normalize_text_for_comparison "acme co".data)) ||
        (containsSub (normalize_text_for_comparison "acme".data)
            (normalize_text_for_comparison "acme co".data) ||
          containsSub (normalize_text_for_comparison "acme co".data)
            (normalize_text_for_comparison "acme".data)),
        similarity_ratio (normalize_text_for_comparison "acme".data)
          (normalize_text_for_comparison "acme co".data)) :=
  ⟨check_name_match_spec.1 [] "x".data 0.80 (Or.inl rfl),
    check_name_match_spec.2.1 "acme".data "acme co".data 0.80 (by decide) (by decide)⟩

/-- C6: with both raw names non-empty, when one normalizes to the empty
string and the other does not, `check_name_match` returns `(true, 0)`:
the similarity is 0 because one operand is empty, but the containment
check succeeds because the empty string is a substring of everything. -/
theorem punct_name_containment (n a : Str) (hn : n ≠ []) (ha : a ≠ [])
    (h : (normalize_text_for_comparison n = [] ∧ normalize_text_for_comparison a ≠ []) ∨
      (normalize_text_for_comparison n ≠ [] ∧ normalize_text_for_comparison a = [])) :
    check_name_match n a 0.80 = (true, 0) := by
  rw [check_name_match_eq n a 0.80 hn ha]
  rcases h with ⟨h1, h2⟩ | ⟨h1, h2⟩
  · rw [h1]
    have hs : similarity_ratio [] (normalize_text_for_comparison a) = 0 := by
      rw [similarity_ratio, if_pos (Or.inl rfl)]
    rw [hs, containsSub_nil_left]
    simp
  · rw [h2]
    have hs : similarity_ratio (normalize_text_for_comparison n) [] = 0 := by
      rw [similarity_ratio, if_pos (Or.inr rfl)]
    rw [hs, containsSub_nil_left]
    simp

/-- C6 (witness): "!!!"" normalizes to the empty string while "abc" does
not, and the result is `(true, 0)`. -/
theorem punct_name_containment_witness :
    check_name_match "!!!".data "abc".data 0.80 = (true, 0) :=
  punct_name_containment "!!!".data "abc".data (by decide) (by decide)
    (Or.inl ⟨by decide, by decide⟩)

/-! ## C7: address matcher -/

theorem check_address_match_eq (i a : Str) (θ : ℚ) (hi : i ≠ []) (ha : a ≠ []) :
    check_address_match i a θ =
      (decide (θ ≤ similarity_ratio (normalize_text_for_comparison i)
          (normalize_text_for_comparison a)) ||
        decide ((0.7 : ℚ) ≤
          (if (pySplit (normalize_text_for_comparison i)).length > 0 then
            (((pySplit (normalize_text_for_comparison i)).filter (fun part =>
                decide (part.length > 2) &&
                  (pySplit (normalize_text_for_comparison a)).any
                    (fun ap => containsSub part ap))).length : ℚ) /
              (max (pySplit (normalize_text_for_comparison i)).length 1 : ℚ)
          else 0)),
        max (similarity_ratio (normalize_text_for_comparison i)
            (normalize_text_for_comparison a))
          (if (pySplit (normalize_text_for_comparison i)).length > 0 then
            (((pySplit (normalize_text_for_comparison i)).filter (fun part =>
                decide (part.length > 2) &&
                  (pySplit (normalize_text_for_comparison a)).any
                    (fun ap => containsSub part ap))).length : ℚ) /
              (max (pySplit (normalize_text_for_comparison i)).length 1 : ℚ)
          else 0)) := by
  rw [check_address_match, if_neg (by simp [hi, ha])]

theorem ratio_if_eq (words : List Str) (f : Str → Bool) :
    (if words.length > 0 then
      ((words.filter f).length : ℚ) / (max words.length 1 : ℚ) else 0) =
      ((words.filter f).length : ℚ) / (max words.length 1 : ℚ) := by
  split
  · rfl
  · next h =>
    have hw : words = [] := by
      cases words with
      | nil => rfl
      | cons w ws => simp at h
    subst hw
    simp

/-- C7: `check_address_match` returns `(false, 0)` when either raw input
is empty; otherwise, with componentRatio = (input words longer than 2
characters occurring as a substring of some API word) / max(total input
words, 1), it returns `matched = (sim ≥ 0.85) OR (componentRatio ≥ 0.7)`
paired with `max(sim, componentRatio)`. -/
theorem check_address_match_spec :
    (∀ i a : Str, (i = [] ∨ a = []) → check_address_match i a 0.85 = (false, 0)) ∧
    (∀ i a : Str, i ≠ [] → a ≠ [] →
      check_address_match i a 0.85 =
        (decide ((0.85 : ℚ) ≤ similarity_ratio (normalize_text_for_comparison i)
            (normalize_text_for_comparison a)) ||
          decide ((0.7 : ℚ) ≤
            (((pySplit (normalize_text_for_comparison i)).filter (fun part =>
                decide (part.length > 2) &&
                  (pySplit (normalize_text_for_comparison a)).any
                    (fun ap => containsSub part ap))).length : ℚ) /
              (max (pySplit (normalize_text_for_comparison i)).length 1 : ℚ)),
          max (similarity_ratio (normalize_text_for_comparison i)
              (normalize_text_for_comparison a))
            ((((pySplit (normalize_text_for_comparison i)).filter (fun part =>
                decide (part.length > 2) &&
                  (pySplit (normalize_text_for_comparison a)).any
                    (fun ap => containsSub part ap))).length : ℚ) /
              (max (pySplit (normalize_text_for_comparison i)).length 1 : ℚ)))) := by
  constructor
  · intro i a hg
    rw [check_address_match, if_pos hg]
  · intro i a hi ha
    rw [check_address_match_eq i a 0.85 hi ha, ratio_if_eq]

/-- C7 (witness): the empty-input clause at `("", "x")` and the general
clause at a concrete address pair. -/
theorem check_address_match_spec_witness :
    check_address_match [] "x".data 0.85 = (false, 0) ∧
    check_address_match "1 main st".data "1 main street".data 0.85 =
      (decide ((0.85 : ℚ) ≤ similarity_ratio
          (normalize_text_for_comparison "1 main st".data)
          (normalize_text_for_comparison "1 main street".data)) ||
        decide ((0.7 : ℚ) ≤
          (((pySplit (normalize_text_for_comparison "1 main st".data)).filter (fun part =>
              decide (part.length > 2) &&
                (pySplit (normalize_text_for_comparison "1 main street".data)).any
                  (fun ap => containsSub part ap))).length : ℚ) /
            (max (pySplit (normalize_text_for_comparison "1 main st".data)).length 1 : ℚ)),
        max (similarity_ratio (normalize_text_for_comparison "1 main st".data)
            (normalize_text_for_comparison "1 main street".data))
          ((((pySplit (normalize_text_for_comparison "1 main st".data)).filter (fun part =>
              decide (part.length > 2) &&
                (pySplit (normalize_text_for_comparison "1 main street".data)).any
                  (fun ap => containsSub part ap))).length : ℚ) /
            (max (pySplit (normalize_text_for_comparison "1 main st".data)).length 1 : ℚ))) :=
  ⟨check_address_match_spec.1 [] "x".data (Or.inl rfl),
    check_address_match_spec.2 "1 main st".data "1 main street".data
      (by decide) (by decide)⟩

/-! ## C8: phone matcher -/

theorem check_phone_match_eq (p q : Str) :
    check_phone_match p q =
      (if normalize_phone p = [] ∨ normalize_phone q = [] then (false, 0)
       else if normalize_phone p = normalize_phone q then (true, 1)
       else if containsSub (normalize_phone p) (normalize_phone q) ||
           containsSub (normalize_phone q) (normalize_phone p) then (true, 0.9)
       else (false, 0)) := rfl

/-- C8: `check_phone_match` returns only the three tiered outcomes
`(false, 0)`, `(true, 1)` and `(true, 0.9)`: after `normalize_phone` on
both inputs it returns `(false, 0)` if either normalized string is empty,
`(true, 1)` on exact equality, `(true, 0.9)` when one normalized string
is a strict substring of the other, and `(false, 0)` otherwise. -/
theorem check_phone_match_spec :
    (∀ p q : Str, check_phone_match p q = (false, 0) ∨
      check_phone_match p q = (true, 1) ∨ check_phone_match p q = (true, 0.9)) ∧
    (∀ p q : Str, (normalize_phone p = [] ∨ normalize_phone q = []) →
      check_phone_match p q = (false, 0)) ∧
    (∀ p q : Str, ¬(normalize_phone p = [] ∨ normalize_phone q = []) →
      normalize_phone p = normalize_phone q → check_phone_match p q = (true, 1)) ∧
    (∀ p q : Str, ¬(normalize_phone p = [] ∨ normalize_phone q = []) →
      normalize_phone p ≠ normalize_phone q →
      (containsSub (normalize_phone p) (normalize_phone q) ||
        containsSub (normalize_phone q) (normalize_phone p)) = true →
      check_phone_match p q = (true, 0.9)) ∧
    (∀ p q : Str, ¬(normalize_phone p = [] ∨ normalize_phone q = []) →
      normalize_phone p ≠ normalize_phone q →
      (containsSub (normalize_phone p) (normalize_phone q) ||
        containsSub (normalize_phone q) (normalize_phone p)) = false →
      check_phone_match p q = (false, 0)) := by
  refine ⟨fun p q => ?_, fun p q hg => ?_, fun p q hg he => ?_,
    fun p q hg hne hc => ?_, fun p q hg hne hc => ?_⟩
  · rw [check_phone_match_eq]
    split_ifs <;> simp
  · rw [check_phone_match_eq, if_pos hg]
  · rw [check_phone_match_eq, if_neg hg, if_pos he]
  · rw [check_phone_match_eq, if_neg hg, if_neg hne, if_pos hc]
  · rw [check_phone_match_eq, if_neg hg, if_neg hne,
      if_neg (by rw [hc]; exact Bool.false_ne_true)]

/-- C8 (witness): concrete applications of the exact-equality tier
(matching the formats "555-123-4567" / "(555) 123-4567") and the
empty-input tier. -/
theorem check_phone_match_spec_witness :
    check_phone_match "555-123-4567".data "(555) 123-4567".data = (true, 1) ∧
    check_phone_match [] "5551234567".data = (false, 0) :=
  ⟨check_phone_match_spec.2.2.1 "555-123-4567".data "(555) 123-4567".data
      (by decide) (by decide),
    check_phone_match_spec.2.1 [] "5551234567".data (Or.inl rfl)⟩

/-! ## C9: no-result row -/

/-- C9: for a record whose lookup returns zero results, the emitted row
has verdict exactly "FAIL - No results found", all three similarity
scores 0, and all three match fields "No". -/
theorem no_results_row (r : InputRecord) :
    (processRecord r .noResults).status = "FAIL - No results found".data ∧
    (processRecord r .noResults).nameSim = 0 ∧
    (processRecord r .noResults).addressSim = 0 ∧
    (processRecord r .noResults).phoneSim = 0 ∧
    (processRecord r .noResults).nameMatch = "No".data ∧
    (processRecord r .noResults).addressMatch = "No".data ∧
    (processRecord r .noResults).phoneMatch = "No".data :=
  ⟨rfl, rfl, rfl, rfl, rfl, rfl, rfl⟩

/-- C9 (witness): the theorem applied at a concrete record. -/
theorem no_results_row_witness :
    (processRecord ⟨"Acme Inc".data, "5551234567".data, "1 A St".data⟩ .noResults).status =
      "FAIL - No results found".data :=
  (no_results_row ⟨"Acme Inc".data, "5551234567".data, "1 A St".data⟩).1

/-! ## C10: summary counters -/

/-- Number of the four category keywords occurring in a status string. -/
def category_hits (s : Str) : Nat :=
  (if containsSub "SUCCESS".data s then 1 else 0) +
    (if containsSub "PARTIAL".data s then 1 else 0) +
    (if containsSub "FAIL".data s then 1 else 0) +
    (if containsSub "ERROR".data s then 1 else 0)

/-- C10 (counterexample): for the one-record batch whose verdict is
"ERROR - FAIL", the verdict is counted both as an error and as a fail
(`.str.contains` searches the whole string), so the four counters sum to
2 while the batch has 1 record. -/
theorem summary_double_counts :
    numSuccess ["ERROR - FAIL".data] + numPartial ["ERROR - FAIL".data] +
        numFail ["ERROR - FAIL".data] + numError ["ERROR - FAIL".data] = 2 ∧
      (["ERROR - FAIL".data] : List Str).length = 1 := by
  constructor <;> decide

theorem count_containing_cons (k s : Str) (l : List Str) :
    count_containing k (s :: l) =
      (if containsSub k s then 1 else 0) + count_containing k l := by
  rw [count_containing, count_containing, List.filter_cons]
  split
  · simp [Nat.add_comm]
  · simp

/-- C10 (amended): each record's verdict increments every category
counter whose keyword occurs anywhere in the verdict string, so a verdict
can be counted more than once; the four counters sum to the record count
exactly on batches where every verdict contains exactly one of the four
keywords (true of all engine verdicts whose error detail contains no
second category word). -/
theorem summary_counts_sum (sts : List Str) (h : ∀ s ∈ sts, category_hits s = 1) :
    numSuccess sts + numPartial sts + numFail sts + numError sts = sts.length := by
  induction sts with
  | nil => rfl
  | cons s l ih =>
    have hs := h s (List.mem_cons_self s l)
    have hl := ih (fun x hx => h x (List.mem_cons_of_mem s hx))
    rw [category_hits] at hs
    rw [numSuccess, numPartial, numFail, numError, count_containing_cons,
      count_containing_cons, count_containing_cons, count_containing_cons] at *
    rw [List.length_cons]
    split_ifs at hs ⊢ <;> omega

/-- C10 (witness): on a batch of two well-formed verdicts the counters
sum to the record count. -/
theorem summary_counts_sum_witness :
    numSuccess ["SUCCESS - All NAP data matches".data, "FAIL - No results found".data] +
        numPartial ["SUCCESS - All NAP data matches".data, "FAIL - No results found".data] +
        numFail ["SUCCESS - All NAP data matches".data, "FAIL - No results found".data] +
        numError ["SUCCESS - All NAP data matches".data, "FAIL - No results found".data] =
      (["SUCCESS - All NAP data matches".data, "FAIL - No results found".data] : List Str).length :=
  summary_counts_sum
    ["SUCCESS - All NAP data matches".data, "FAIL - No results found".data] (by decide)

/-! ## C3: shape of normalize_text_for_comparison -/

/-- C3 (counterexample): the Python class `\w` keeps the underscore, so
`normalize_text_for_comparison "_"` is `"_"`, which is neither a
lowercase letter, a digit, nor a space. -/
theorem normalize_text_keeps_underscore :
    ¬ (∀ c ∈ normalize_text_for_comparison "_".data,
        c.isLower = true ∨ c.isDigit = true ∨ c = ' ') := by decide

theorem splitAux_words (Q : Char → Prop) :
    ∀ (s acc : Str), (∀ c ∈ s, c.isWhitespace = false → Q c) →
      (∀ c ∈ acc, Q c ∧ c.isWhitespace = false) →
      ∀ w ∈ splitAux s acc, w ≠ [] ∧ ∀ c ∈ w, Q c ∧ c.isWhitespace = false := by
  intro s
  induction s with
  | nil =>
    intro acc _ hacc w hw
    rw [splitAux] at hw
    split at hw
    · simp at hw
    · next hne =>
      simp only [List.mem_singleton] at hw
      subst hw
      exact ⟨by simpa using hne, fun c hc => hacc c (by simpa using hc)⟩
  | cons c cs ih =>
    intro acc hs hacc w hw
    rw [splitAux] at hw
    by_cases hws : c.isWhitespace = true
    · rw [if_pos hws] at hw
      split at hw
      · exact ih [] (fun d hd hdw => hs d (List.mem_cons_of_mem c hd) hdw) (by simp) w hw
      · next hne =>
        rcases List.mem_cons.1 hw with rfl | hw'
        · exact ⟨by simpa using hne, fun d hd => hacc d (by simpa using hd)⟩
        · exact ih [] (fun d hd hdw => hs d (List.mem_cons_of_mem c hd) hdw) (by simp) w hw'
    · rw [if_neg hws] at hw
      refine ih (c :: acc) (fun d hd hdw => hs d (List.mem_cons_of_mem c hd) hdw) ?_ w hw
      intro d hd
      rcases List.mem_cons.1 hd with rfl | hd'
      · exact ⟨hs d (List.mem_cons_self _ _) (by simpa using hws), by simpa using hws⟩
      · exact hacc d hd'

theorem chain'_no_doublespace (w : Str) (hw : ∀ c ∈ w, c.isWhitespace = false) :
    w.Chain' (fun a b => ¬(a = ' ' ∧ b = ' ')) := by
  induction w with
  | nil => exact List.chain'_nil
  | cons c cs ih =>
    rw [List.chain'_cons']
    refine ⟨fun y _ => ?_, ih (fun d hd => hw d (List.mem_cons_of_mem c hd))⟩
    rintro ⟨hc, _⟩
    have hcw := hw c (List.mem_cons_self c cs)
    rw [hc] at hcw
    simp at hcw

theorem joinSpace_cons_ne_nil (w : Str) (ws : List Str) (hw : w ≠ []) :
    joinSpace (w :: ws) ≠ [] := by
  cases ws with
  | nil => exact hw
  | cons w' ws' => simp [joinSpace]

theorem joinSpace_sound :
    ∀ ws : List Str, (∀ w ∈ ws, w ≠ [] ∧ ∀ c ∈ w, c.isWhitespace = false) →
      (∀ c ∈ joinSpace ws, (∃ w ∈ ws, c ∈ w) ∨ c = ' ') ∧
      (∀ c, (joinSpace ws).head? = some c → c.isWhitespace = false) ∧
      (∀ c, (joinSpace ws).getLast? = some c → c.isWhitespace = false) ∧
      (joinSpace ws).Chain' (fun a b => ¬(a = ' ' ∧ b = ' '))
  | [], _ => by
    refine ⟨fun c hc => by simp [joinSpace] at hc, fun c hc => by simp [joinSpace] at hc,
      fun c hc => by simp [joinSpace] at hc, by simp [joinSpace]⟩
  | [w], h => by
    have hw := h w (List.mem_singleton.2 rfl)
    rw [joinSpace]
    refine ⟨fun c hc => Or.inl ⟨w, List.mem_singleton.2 rfl, hc⟩,
      fun c hc => hw.2 c (List.mem_of_mem_head? hc),
      fun c hc => hw.2 c (List.mem_of_mem_getLast? hc),
      chain'_no_doublespace w hw.2⟩
  | w :: w' :: ws, h => by
    have hw := h w (List.mem_cons_self w (w' :: ws))
    have hrest : ∀ u ∈ w' :: ws, u ≠ [] ∧ ∀ c ∈ u, c.isWhitespace = false :=
      fun u hu => h u (List.mem_cons_of_mem w hu)
    have IH := joinSpace_sound (w' :: ws) hrest
    have hjs : joinSpace (w' :: ws) ≠ [] :=
      joinSpace_cons_ne_nil w' ws (hrest w' (List.mem_cons_self w' ws)).1
    rw [joinSpace]
    refine ⟨fun c hc => ?_, fun c hc => ?_, fun c hc => ?_, ?_⟩
    · rcases List.mem_append.1 hc with hcw | hcr
      · exact Or.inl ⟨w, List.mem_cons_self w (w' :: ws), hcw⟩
      · rcases List.mem_cons.1 hcr with rfl | hcr'
        · exact Or.inr rfl
        · rcases (IH.1 c hcr') with ⟨u, hu, hcu⟩ | hsp
          · exact Or.inl ⟨u, List.mem_cons_of_mem w hu, hcu⟩
          · exact Or.inr hsp
    · obtain ⟨x, xs, rfl⟩ := List.exists_cons_of_ne_nil hw.1
      rw [List.cons_append, List.head?_cons, Option.some.injEq] at hc
      subst hc
      exact hw.2 x (List.mem_cons_self x xs)
    · rw [show (' ' :: joinSpace (w' :: ws)) = [' '] ++ joinSpace (w' :: ws) from rfl,
        ← List.append_assoc, List.getLast?_append_of_ne_nil _ hjs] at hc
      exact IH.2.2.1 c hc
    · rw [List.chain'_append]
      refine ⟨chain'_no_doublespace w hw.2, ?_, ?_⟩
      · rw [List.chain'_cons']
        refine ⟨fun y hy => ?_, IH.2.2.2⟩
        rintro ⟨_, hy'⟩
        have := IH.2.1 y hy
        rw [hy'] at this
        simp at this
      · intro x hx y hy
        rintro ⟨hx', _⟩
        have := hw.2 x (List.mem_of_mem_getLast? hx)
        rw [hx'] at this
        simp at this

theorem normalize_text_eq (text : Str) (ht : text ≠ []) :
    normalize_text_for_comparison text =
      joinSpace (pySplit ((pyLower text).map
        (fun c => if isWordChar c || c.isWhitespace then c else ' '))) := by
  rw [normalize_text_for_comparison, if_neg ht]

theorem wordchar_lower_cases (c : Char) (h1 : isWordChar c = true) (h2 : c.isUpper = false) :
    c.isLower = true ∨ c.isDigit = true ∨ c = '_' := by
  simp only [isWordChar, Char.isAlphanum, Char.isAlpha, Bool.or_eq_true, beq_iff_eq] at h1
  rcases h1 with ((hu | hl) | hd) | he
  · rw [h2] at hu
    exact absurd hu (by simp)
  · exact Or.inl hl
  · exact Or.inr (Or.inl hd)
  · exact Or.inr (Or.inr he)

/-- C3 (amended): the output of `normalize_text_for_comparison` consists
only of lowercase letters, digits, underscores and single interior
spaces, with no leading or trailing space: Python's `\w` class also keeps
the underscore, which the claim's "letters, digits" list omits
(`normalize_text_keeps_underscore`). -/
theorem normalize_text_shape (text : Str) :
    (∀ c ∈ normalize_text_for_comparison text,
        c.isLower = true ∨ c.isDigit = true ∨ c = '_' ∨ c = ' ') ∧
    (∀ c, (normalize_text_for_comparison text).head? = some c → c ≠ ' ') ∧
    (∀ c, (normalize_text_for_comparison text).getLast? = some c → c ≠ ' ') ∧
    (normalize_text_for_comparison text).Chain' (fun a b => ¬(a = ' ' ∧ b = ' ')) := by
  by_cases ht : text = []
  · subst ht
    rw [normalize_text_for_comparison, if_pos rfl]
    exact ⟨fun c hc => by simp at hc, fun c hc => by simp at hc,
      fun c hc => by simp at hc, List.chain'_nil⟩
  · rw [normalize_text_eq text ht]
    set f : Char → Char := fun c => if isWordChar c || c.isWhitespace then c else ' ' with hf
    set replaced := (pyLower text).map f with hrep
    have hchars : ∀ c ∈ replaced, c.isWhitespace = false →
        isWordChar c = true ∧ c.isUpper = false := by
      intro c hc hcw
      rcases List.mem_map.1 hc with ⟨d, hd, hfd⟩
      rcases List.mem_map.1 hd with ⟨e, _, hde⟩
      rw [hf] at hfd
      simp only at hfd
      split at hfd
      · next hcond =>
        subst hfd
        simp only [Bool.or_eq_true, decide_eq_true_eq] at hcond
        rcases hcond with hwc | hwhite
        · refine ⟨hwc, ?_⟩
          rw [← hde]
          exact toLower_isUpper_false e
        · rw [hwhite] at hcw
          exact absurd hcw (by simp)
      · subst hfd
        exact absurd hcw (by simp)
    have hwords := splitAux_words (fun c => isWordChar c = true ∧ c.isUpper = false)
      replaced [] hchars (by simp)
    have hsound := joinSpace_sound (pySplit replaced)
      (fun w hw => ⟨(hwords w hw).1, fun c hc => ((hwords w hw).2 c hc).2⟩)
    refine ⟨fun c hc => ?_, fun c hc => ?_, fun c hc => ?_, hsound.2.2.2⟩
    · rcases hsound.1 c hc with ⟨w, hwmem, hcw⟩ | hsp
      · have hq := (hwords w hwmem).2 c hcw
        rcases wordchar_lower_cases c hq.1.1 hq.1.2 with hl | hd | he
        · exact Or.inl hl
        · exact Or.inr (Or.inl hd)
        · exact Or.inr (Or.inr (Or.inl he))
      · exact Or.inr (Or.inr (Or.inr hsp))
    · have := hsound.2.1 c hc
      intro hsp
      rw [hsp] at this
      simp at this
    · have := hsound.2.2.1 c hc
      intro hsp
      rw [hsp] at this
      simp at this
